import Mathlib

/-!
Verification of the INVERSION-SIM core against its specification.

The development shallowly embeds the spectral analyzer, the behavior-sample
window, the custom anomaly criterion, the run-directory allocator and the
leaderboard sorting pass of the repository.  The grid state machine (whose
implementation lives in `core.ts`, outside the reviewed sources) and the
per-category top-K retrieval are modelled from the specification text.

Numeric conventions: JavaScript numbers are modelled as elements of a linear
ordered field (`ℚ` for executable instances, `ℝ` where the transcendental
`Math.cos`/`Math.sin`/`Math.sqrt` values matter).  The trigonometric calls of
the analyzer are abstracted into a `TrigOps` record whose real instantiation
is `fun q => Real.cos (2 * π * q)` etc., mirroring
`Math.cos((2 * Math.PI * k * t) / N)`.
-/

/-- Result record of `Bot.performSpectralAnalysis` (src/botFleet.ts, `SpectralData`). -/
structure SpectralData (α : Type) where
  frequencies : List α
  magnitudes : List α
  dominantFrequency : α
  harmonics : List α
  periodicityScore : α
deriving DecidableEq, Repr

/-- The trigonometric/square-root primitives used by the analyzer.
`cosT q` models `Math.cos (2π·q)` and `sinT q` models `Math.sin (2π·q)`,
where `q` is the rational turn fraction `k·t/N`; `sqrtF` models `Math.sqrt`. -/
structure TrigOps (α : Type) where
  cosT : ℚ → α
  sinT : ℚ → α
  sqrtF : α → α

/-- The `real` accumulator of bin `k` in `Bot.performSpectralAnalysis`
(src/botFleet.ts lines 475-482): `real += sequence[t]·cos((2πkt)/N)` over
all `N` samples, starting at 0. -/
def binRe {α : Type} [LinearOrderedField α] (ops : TrigOps α)
    (seq : List α) (k : ℕ) : α :=
  (List.range seq.length).foldl
    (fun acc t => acc + seq.getD t 0 * ops.cosT ((k * t : ℚ) / seq.length)) 0

/-- The `imag` accumulator of bin `k`:
`imag -= sequence[t]·sin((2πkt)/N)` over all `N` samples, starting at 0. -/
def binIm {α : Type} [LinearOrderedField α] (ops : TrigOps α)
    (seq : List α) (k : ℕ) : α :=
  (List.range seq.length).foldl
    (fun acc t => acc - seq.getD t 0 * ops.sinT ((k * t : ℚ) / seq.length)) 0

/-- The magnitude of bin `k`: `sqrt(real·real + imag·imag) / N`. -/
def binMagnitude {α : Type} [LinearOrderedField α] (ops : TrigOps α)
    (seq : List α) (k : ℕ) : α :=
  ops.sqrtF (binRe ops seq k * binRe ops seq k +
    binIm ops seq k * binIm ops seq k) / (seq.length : α)

/-- The dominant-frequency scan of `Bot.performSpectralAnalysis`
(src/botFleet.ts lines 488-496) over (magnitude, frequency) pairs:
`maxMag` starts at 0, `dominantFreq` starts at 0, and every pair whose
magnitude strictly exceeds the running maximum replaces both. -/
def domScan {α : Type} [LinearOrderedField α] (pairs : List (α × α)) :
    α × α :=
  pairs.foldl (fun md p => if md.1 < p.1 then p else md) (0, 0)

/-- The DFT-style analysis of `Bot.performSpectralAnalysis` (src/botFleet.ts
lines 470-516), for a window `seq`: `n = min N 64` frequency bins; bin `k`
has magnitude `binMagnitude` and frequency `k/N`; the dominant-frequency
scan starts at bin 1 with `maxMag = 0` and a strict comparison; harmonics
are the bins from index 1 on whose magnitude exceeds `maxMag·0.5`; the
periodicity score is `harmonics.length / n` when harmonics exist and `0`
otherwise. -/
def computeSpectral {α : Type} [LinearOrderedField α] (ops : TrigOps α)
    (seq : List α) : SpectralData α :=
  let N := seq.length
  let n := min N 64
  let magnitudes := (List.range n).map (binMagnitude ops seq)
  let frequencies := (List.range n).map (fun k : ℕ => (k : α) / (N : α))
  let md := domScan ((magnitudes.zip frequencies).drop 1)
  let harmonics := ((magnitudes.zip frequencies).drop 1).filterMap
    (fun p => if md.1 / 2 < p.1 then some p.2 else none)
  let score := if 0 < harmonics.length then (harmonics.length : α) / n else 0
  { frequencies := frequencies
    magnitudes := magnitudes
    dominantFrequency := md.2
    harmonics := harmonics
    periodicityScore := score }

/-- Initial value of the `spectralData` field of a `Bot`
(src/botFleet.ts lines 149-155): empty arrays, dominant frequency 0,
periodicity score 0. -/
def initialSpectralData {α : Type} [LinearOrderedField α] : SpectralData α :=
  { frequencies := []
    magnitudes := []
    dominantFrequency := 0
    harmonics := []
    periodicityScore := 0 }

/-- The spectral-analysis state a `Bot` carries: the stored `spectralData`
snapshot and the `behaviorSequence` sliding window. -/
structure BotSpectralState (α : Type) where
  spectralData : SpectralData α
  behaviorSequence : List α

/-- `Bot.addToBehaviorSequence` (src/botFleet.ts lines 456-461): push the
value, then if the window holds more than 1000 samples drop the oldest. -/
def addToBehaviorSequence {α : Type} [LinearOrderedField α]
    (st : BotSpectralState α) (v : α) : BotSpectralState α :=
  let s := st.behaviorSequence ++ [v]
  { st with behaviorSequence := if 1000 < s.length then s.drop 1 else s }

/-- `Bot.performSpectralAnalysis` (src/botFleet.ts lines 464-519): with fewer
than 10 samples the stored snapshot is returned and the state is untouched;
otherwise the analysis runs and is stored as the new snapshot. -/
def performSpectralAnalysis {α : Type} [LinearOrderedField α]
    (ops : TrigOps α) (st : BotSpectralState α) :
    SpectralData α × BotSpectralState α :=
  if st.behaviorSequence.length < 10 then (st.spectralData, st)
  else
    let r := computeSpectral ops st.behaviorSequence
    (r, { st with spectralData := r })

/-- Maximum magnitude among the bins other than bin 0 (floored at 0), the
value the dominant-frequency scan of `performSpectralAnalysis` accumulates. -/
def maxNonDC {α : Type} [LinearOrderedField α] (r : SpectralData α) : α :=
  (r.magnitudes.drop 1).foldl max 0

/-- The real instantiation of the analyzer trigonometric primitives:
`cosT q = cos (2πq)`, `sinT q = sin (2πq)`, `sqrtF = Real.sqrt`, matching
`Math.cos((2πkt)/N)`, `Math.sin((2πkt)/N)` and `Math.sqrt`. -/
noncomputable def realTrigOps : TrigOps ℝ :=
  { cosT := fun q => Real.cos (2 * Real.pi * (q : ℝ))
    sinT := fun q => Real.sin (2 * Real.pi * (q : ℝ))
    sqrtF := Real.sqrt }

/-- A rational instantiation of the trigonometric primitives (all reads
return 0, square root is the identity), used to exercise the structural
theorems on concrete inputs. -/
def zeroTrigOps : TrigOps ℚ :=
  { cosT := fun _ => 0
    sinT := fun _ => 0
    sqrtF := fun x => x }

/-- The closed set of inversion kinds (src/types.ts via src/botFleet.ts:
"GEOM", "SPHERE", "OBSERVER", "CAUSAL"). -/
inductive InvKind where
  | GEOM
  | SPHERE
  | OBSERVER
  | CAUSAL
deriving DecidableEq, Repr

/-- Simulation parameters (`RunConfig` of src/types.ts as used throughout
src/botFleet.ts and the main driver). -/
structure RunConfig where
  sizeX : ℕ
  sizeY : ℕ
  x0 : ℚ
  y0 : ℚ
  vx0 : ℚ
  vy0 : ℚ
  phase0 : ℚ
  steps : ℕ
  multiplier : ℕ
  modulus : ℕ
  inversionSchedule : List (ℕ × InvKind)
deriving DecidableEq, Repr

/-- One per-step snapshot: position, velocity, phase, inverted marker and
step index (spec §3, `State`). -/
structure SimState where
  x : ℚ
  y : ℚ
  vx : ℚ
  vy : ℚ
  phase : ℚ
  inverted : Option InvKind
  step : ℕ
deriving DecidableEq, Repr

/-- A discrete event row (spec §3/§6: step, event type, phase before/after,
position and velocity at trigger time). -/
structure SimEvent where
  step : ℕ
  eventType : String
  phaseBefore : ℚ
  phaseAfter : ℚ
  x : ℚ
  y : ℚ
  vx : ℚ
  vy : ℚ
deriving DecidableEq, Repr

/-- The schedule threshold steps are non-decreasing. -/
def schedNondecreasing : List (ℕ × InvKind) → Bool
  | a :: b :: rest => a.1 ≤ b.1 && schedNondecreasing (b :: rest)
  | _ => true

/-- Validity of a `RunConfig` (spec §3: positive grid extents, initial
position inside the grid, positive step count, positive `multiplier` and
`mod`, schedule steps non-decreasing and within `[0, steps]`). -/
abbrev validConfig (cfg : RunConfig) : Prop :=
  0 < cfg.sizeX ∧ 0 < cfg.sizeY ∧
  0 ≤ cfg.x0 ∧ cfg.x0 ≤ (cfg.sizeX : ℚ) ∧
  0 ≤ cfg.y0 ∧ cfg.y0 ≤ (cfg.sizeY : ℚ) ∧
  0 < cfg.steps ∧ 0 < cfg.multiplier ∧ 0 < cfg.modulus ∧
  schedNondecreasing cfg.inversionSchedule = true ∧
  ∀ e ∈ cfg.inversionSchedule, e.1 ≤ cfg.steps

/-- The initial state of a run: `(x0, y0, vx0, vy0, phase0)`, no inversion
marker, step index 0. -/
def initState (cfg : RunConfig) : SimState :=
  { x := cfg.x0, y := cfg.y0, vx := cfg.vx0, vy := cfg.vy0
    phase := cfg.phase0, inverted := none, step := 0 }

/-- Modelled from the spec: the Inversion Scheduler (spec §4.2); the
implementation lives in `core.ts`, which is not among the reviewed sources.
While the next unapplied entry's threshold is at most the current step
index, the entry is applied (the active kind switches) and the cursor
advances; fired entries are reported in schedule order. -/
def fireDue : List (ℕ × InvKind) → ℕ → Option InvKind →
    List (ℕ × InvKind) × Option InvKind × List (ℕ × InvKind)
  | [], _, kind => ([], kind, [])
  | (s, k) :: rest, i, kind =>
    if s ≤ i then
      let r := fireDue rest i (some k)
      (r.1, r.2.1, (s, k) :: r.2.2)
    else ((s, k) :: rest, kind, [])

/-- Real remainder `a mod m` for positive `m`, as JavaScript computes it for
non-negative operands: `a - m·⌊a/m⌋`. -/
def ratMod (a m : ℚ) : ℚ := a - m * ⌊a / m⌋

/-- Modelled from the spec: the phase-update law of the Grid State Machine
(spec §4.1 item 4, implemented in `core.ts` which is not among the reviewed
sources): `phase' = (phase·multiplier) mod mod`, normalized to `[0,1)` by
dividing by `mod`. -/
def phaseNext (cfg : RunConfig) (p : ℚ) : ℚ :=
  ratMod (p * cfg.multiplier) cfg.modulus / cfg.modulus

/-- Modelled from the spec: one axis of the reflect boundary rule (spec §4.1
item 3, implemented in the variant files which are not among the reviewed
sources): tentative position is `pos + vel`; leaving `[0, size]` sign-flips
the velocity component and clamps, and reports that the boundary fired. -/
def reflectAxis (pos vel size : ℚ) : ℚ × ℚ × Bool :=
  let t := pos + vel
  if t < 0 ∨ size < t then (max 0 (min size t), -vel, true) else (t, vel, false)

/-- State of the stepping loop: current state, unapplied schedule suffix,
active kind, trajectory buffer and event log. -/
structure EngineState where
  cur : SimState
  remaining : List (ℕ × InvKind)
  activeKind : Option InvKind
  trajectory : List SimState
  events : List SimEvent
deriving Repr

/-- Modelled from the spec: one iteration of the Grid State Machine
(spec §4.1, implemented in `core.ts` which is not among the reviewed
sources).  The Scheduler is consulted, the reflect Variant computes the next
position, the phase is updated, boundary and inversion events are recorded.
The spec requires both that the trajectory have length exactly `steps` and
that its first element be the initial state, so each of the `steps`
iterations records the state at its entry (the state resulting from the
previous iteration) and unconditionally appends it to the trajectory. -/
def simIteration (cfg : RunConfig) (es : EngineState) (i : ℕ) : EngineState :=
  let fired := fireDue es.remaining i es.activeKind
  let s := es.cur
  let rx := reflectAxis s.x s.vx (cfg.sizeX : ℚ)
  let ry := reflectAxis s.y s.vy (cfg.sizeY : ℚ)
  let pB := s.phase
  let pA := phaseNext cfg pB
  let boundaryEvents : List SimEvent :=
    if rx.2.2 || ry.2.2 then
      [{ step := i, eventType := "reflect", phaseBefore := pB, phaseAfter := pA
         x := rx.1, y := ry.1, vx := rx.2.1, vy := ry.2.1 }]
    else []
  let inversionEvents : List SimEvent := fired.2.2.map (fun _ =>
    { step := i, eventType := "inversion", phaseBefore := pB, phaseAfter := pA
      x := s.x, y := s.y, vx := s.vx, vy := s.vy })
  let next : SimState :=
    { x := rx.1, y := ry.1, vx := rx.2.1, vy := ry.2.1
      phase := pA, inverted := fired.2.1, step := i + 1 }
  { cur := next
    remaining := fired.1
    activeKind := fired.2.1
    trajectory := es.trajectory ++ [s]
    events := es.events ++ inversionEvents ++ boundaryEvents }

/-- The engine state a run starts from: the initial state, the full
schedule, no active kind, empty trajectory and empty event log. -/
def startEngine (cfg : RunConfig) : EngineState :=
  { cur := initState cfg
    remaining := cfg.inversionSchedule
    activeKind := none
    trajectory := []
    events := [] }

/-- Modelled from the spec: a full run of the Grid State Machine
(`runVariant` of `core.ts`, which is not among the reviewed sources):
`steps` iterations starting from the initial state, empty trajectory and
empty event log. -/
def runSim (cfg : RunConfig) : EngineState :=
  (List.range cfg.steps).foldl (simIteration cfg) (startEngine cfg)

/-- A per-category leaderboard entry as sorted by `BotFleet.sortRunsData`
(src/botFleet.ts lines 883-887): a run directory name and the category
score. -/
structure LBEntry where
  runDir : String
  score : ℚ
deriving DecidableEq, Repr

/-- The descending sort `(a, b) => b.score - a.score` applied by
`BotFleet.sortRunsData` to the retrieved per-category entries. -/
def sortByScoreDesc (l : List LBEntry) : List LBEntry :=
  l.mergeSort (fun a b => b.score ≤ a.score)

/-- Modelled from the spec: `BlockchainManager.getTopAnomalies(category, n)`
(the implementation is not among the reviewed sources; the stub in
src/blockchain.ts lacks it).  Per spec §4.5/§6 it retrieves the top `n`
entries of the per-category bounded store, ranked by score descending. -/
def getTopAnomalies (store : List LBEntry) (n : ℕ) : List LBEntry :=
  (sortByScoreDesc store).take n

/-- The per-category update performed by `BotFleet.sortRunsData`
(src/botFleet.ts lines 883-887): retrieve the top 1000 entries and store
them sorted by score descending. -/
def sortRunsCategory (store : List LBEntry) : List LBEntry :=
  sortByScoreDesc (getTopAnomalies store 1000)

/-- An anomaly entry as produced by the custom criterion registered in
`BotFleet.refineLogic` (src/botFleet.ts lines 922-940). -/
structure AnomalyResultEntry where
  id : String
  score : ℚ
  category : String
  description : String
  timestamp : String
  source : String
deriving DecidableEq, Repr

/-- First-occurrence deduplication, the order `[...new Set(spacings)]`
produces in JavaScript. -/
def uniqueInOrder (l : List ℤ) : List ℤ :=
  l.foldl (fun acc x => if x ∈ acc then acc else acc ++ [x]) []

/-- The custom scoring criterion registered by `BotFleet.refineLogic`
(src/botFleet.ts lines 922-940): consecutive event-step spacings are
deduplicated; when at most 5 distinct spacings remain, one entry is emitted
whose `id` is `"spacing_" ++ Date.now()` and whose `timestamp` renders the
same clock reading (`iso` abstracts `new Date().toISOString()`); otherwise
no entry is emitted.  `nowMs` is the wall-clock reading `Date.now()`. -/
def spacingCriterion (iso : ℕ → String) (events : List SimEvent)
    (nowMs : ℕ) : List AnomalyResultEntry :=
  let spacings := (events.zip events.tail).map
    (fun p => (p.2.step : ℤ) - (p.1.step : ℤ))
  let uniqueSpacings := uniqueInOrder spacings
  if uniqueSpacings.length ≤ 5 then
    [{ id := "spacing_" ++ toString nowMs
       score := (uniqueSpacings.length : ℚ)
       category := "Spacing Bands"
       description := "Discrete spacings: " ++
         String.intercalate "," (uniqueSpacings.map toString)
       timestamp := iso nowMs
       source := "bot_logic" }]
  else []

/-- Decimal digit list of `n` (most significant first), computed with the
division loop `String(n)` performs; the first argument is structural fuel
(`n` itself suffices). -/
def natReprAux : ℕ → ℕ → List ℕ
  | 0, _ => []
  | fuel + 1, n => if n < 10 then [n] else natReprAux fuel (n / 10) ++ [n % 10]

/-- Decimal rendering of a natural number, as `String(n)` produces it. -/
def natDecimal (n : ℕ) : String :=
  if n = 0 then "0"
  else String.mk ((natReprAux n n).map (fun d => Char.ofNat (48 + d)))

/-- `String.prototype.padStart(w, c)`: left-pad to width `w` with `c`;
a string already at least `w` long is returned unchanged. -/
def padStart (s : String) (w : ℕ) (c : Char) : String :=
  String.mk (List.replicate (w - s.length) c) ++ s

/-- `formatRunName` of the main driver (src, `allocateRunDir` helper):
`run_` followed by the counter zero-padded with `padStart(6, "0")`. -/
def formatRunName (n : ℕ) : String :=
  "run_" ++ padStart (natDecimal n) 6 '0'

/-- The persistent allocator state: the `run_counter.txt` value and the set
of existing run directories. -/
structure StoreState where
  counter : ℕ
  dirs : List String
deriving DecidableEq, Repr

/-- `allocateRunDir` of the main driver: format the run name from the
counter; if the directory already exists, fail without touching anything
(never overwrite); otherwise create the directory and increment the counter
immediately. -/
def allocateRunDir (st : StoreState) : StoreState × Except String String :=
  let runName := formatRunName st.counter
  if runName ∈ st.dirs then
    (st, Except.error ("Run directory already exists: " ++ runName))
  else
    ({ counter := st.counter + 1, dirs := st.dirs ++ [runName] },
      Except.ok runName)

/-- A pure sinusoid of frequency `k0/64` (in cycles per sample) sampled at
the 64 integer times `t = 0, …, 63` with zero phase, fed to the analyzer as
its behavior window. -/
noncomputable def sinusoidWindow (k0 : ℕ) : List ℝ :=
  (List.range 64).map
    (fun t : ℕ => Real.sin (2 * Real.pi * ((k0 : ℝ) * (t : ℝ) / 64)))

/-- A small concrete run configuration used to exercise the simulation
theorems. -/
def sampleConfig : RunConfig :=
  { sizeX := 5, sizeY := 7, x0 := 1, y0 := 1, vx0 := 1, vy0 := 1
    phase0 := 0, steps := 3, multiplier := 7, modulus := 13
    inversionSchedule := [(1, InvKind.GEOM)] }

/-! ## General helper lemmas -/

/-- A left fold accumulating additions computes the sum of the mapped list. -/
theorem foldl_add_eq_sum {α : Type} [AddCommMonoid α] {β : Type} (g : β → α) :
    ∀ (l : List β) (a : α),
      l.foldl (fun acc p => acc + g p) a = a + (l.map g).sum := by
  intro l
  induction l with
  | nil => simp
  | cons x xs ih => intro a; simp [ih, add_assoc]

/-- A left fold accumulating subtractions computes the negated sum of the
mapped list. -/
theorem foldl_sub_eq_sum {α : Type} [AddCommGroup α] {β : Type} (g : β → α) :
    ∀ (l : List β) (a : α),
      l.foldl (fun acc p => acc - g p) a = a - (l.map g).sum := by
  intro l
  induction l with
  | nil => simp
  | cons x xs ih => intro a; simp [ih, sub_sub]

/-- The list sum over `List.range` is the `Finset.range` sum. -/
theorem list_range_map_sum {α : Type} [AddCommMonoid α] (n : ℕ) (g : ℕ → α) :
    ((List.range n).map g).sum = ∑ t ∈ Finset.range n, g t := by
  induction n with
  | zero => simp
  | succ m ih => simp [List.range_succ, Finset.sum_range_succ, ih]

/-- Reading entry `k < n` of `(List.range n).map f` yields `f k`. -/
theorem getD_map_range {β : Type} (f : ℕ → β) (d : β) {n k : ℕ} (h : k < n) :
    ((List.range n).map f).getD k d = f k := by
  rw [List.getD_eq_getElem _ _ (by simpa using h), List.getElem_map,
    List.getElem_range]

/-- The frequency list of the analysis, in closed form. -/
theorem computeSpectral_frequencies {α : Type} [LinearOrderedField α]
    (ops : TrigOps α) (seq : List α) :
    (computeSpectral ops seq).frequencies =
      (List.range (min seq.length 64)).map
        (fun k : ℕ => (k : α) / (seq.length : α)) :=
  rfl

/-- The magnitude list of the analysis, in closed form. -/
theorem computeSpectral_magnitudes {α : Type} [LinearOrderedField α]
    (ops : TrigOps α) (seq : List α) :
    (computeSpectral ops seq).magnitudes =
      (List.range (min seq.length 64)).map (binMagnitude ops seq) :=
  rfl

/-- The `real` accumulator of bin `k` equals the corresponding sum. -/
theorem binRe_eq_sum {α : Type} [LinearOrderedField α] (ops : TrigOps α)
    (seq : List α) (k : ℕ) :
    binRe ops seq k = ∑ t ∈ Finset.range seq.length,
      seq.getD t 0 * ops.cosT ((k * t : ℚ) / seq.length) := by
  unfold binRe
  rw [foldl_add_eq_sum, list_range_map_sum, zero_add]

/-- The `imag` accumulator of bin `k` equals the negated corresponding sum. -/
theorem binIm_eq_sum {α : Type} [LinearOrderedField α] (ops : TrigOps α)
    (seq : List α) (k : ℕ) :
    binIm ops seq k = -∑ t ∈ Finset.range seq.length,
      seq.getD t 0 * ops.sinT ((k * t : ℚ) / seq.length) := by
  unfold binIm
  rw [foldl_sub_eq_sum, list_range_map_sum, zero_sub]

/-! ## Claim C2: bin count and magnitude formula of the spectral analysis -/

/-- Claim C2: for every behavior-sample window of length `N ≥ 10` the
spectral analysis computes exactly `min N 64` frequency bins, and the
magnitude of bin `k` is
`sqrt((Σₜ s(t)·cos(2πkt/N))² + (Σₜ s(t)·sin(2πkt/N))²)/N`, the sums ranging
over all `N` samples of the window. -/
theorem claim_C2_bins_and_magnitudes {α : Type} [LinearOrderedField α]
    (ops : TrigOps α) (seq : List α) (h : 10 ≤ seq.length) :
    (computeSpectral ops seq).frequencies.length = min seq.length 64 ∧
    (computeSpectral ops seq).magnitudes.length = min seq.length 64 ∧
    ∀ k, k < min seq.length 64 →
      (computeSpectral ops seq).magnitudes.getD k 0 =
        ops.sqrtF
          ((∑ t ∈ Finset.range seq.length,
              seq.getD t 0 * ops.cosT ((k * t : ℚ) / seq.length)) ^ 2 +
           (∑ t ∈ Finset.range seq.length,
              seq.getD t 0 * ops.sinT ((k * t : ℚ) / seq.length)) ^ 2) /
          (seq.length : α) := by
  refine ⟨?_, ?_, ?_⟩
  · rw [computeSpectral_frequencies]; simp
  · rw [computeSpectral_magnitudes]; simp
  · intro k hk
    rw [computeSpectral_magnitudes, getD_map_range _ _ hk]
    unfold binMagnitude
    congr 2
    rw [binRe_eq_sum, binIm_eq_sum]
    ring

/-- Witness for claim C2 at a concrete window of ten zero samples. -/
theorem claim_C2_witness :
    10 ≤ (List.replicate 10 (0 : ℚ)).length ∧
    ((computeSpectral zeroTrigOps (List.replicate 10 (0 : ℚ))).frequencies.length =
       min (List.replicate 10 (0 : ℚ)).length 64 ∧
     (computeSpectral zeroTrigOps (List.replicate 10 (0 : ℚ))).magnitudes.length =
       min (List.replicate 10 (0 : ℚ)).length 64 ∧
     ∀ k, k < min (List.replicate 10 (0 : ℚ)).length 64 →
       (computeSpectral zeroTrigOps (List.replicate 10 (0 : ℚ))).magnitudes.getD k 0 =
         zeroTrigOps.sqrtF
           ((∑ t ∈ Finset.range (List.replicate 10 (0 : ℚ)).length,
               (List.replicate 10 (0 : ℚ)).getD t 0 *
                 zeroTrigOps.cosT ((k * t : ℚ) / (List.replicate 10 (0 : ℚ)).length)) ^ 2 +
            (∑ t ∈ Finset.range (List.replicate 10 (0 : ℚ)).length,
               (List.replicate 10 (0 : ℚ)).getD t 0 *
                 zeroTrigOps.sinT ((k * t : ℚ) / (List.replicate 10 (0 : ℚ)).length)) ^ 2) /
           ((List.replicate 10 (0 : ℚ)).length : ℚ)) :=
  ⟨by decide, claim_C2_bins_and_magnitudes zeroTrigOps _ (by decide)⟩

/-- The periodicity score of the analysis, in closed form. -/
theorem computeSpectral_score {α : Type} [LinearOrderedField α]
    (ops : TrigOps α) (seq : List α) :
    (computeSpectral ops seq).periodicityScore =
      if 0 < (computeSpectral ops seq).harmonics.length then
        ((computeSpectral ops seq).harmonics.length : α) /
          ((min seq.length 64 : ℕ) : α)
      else 0 :=
  rfl

/-- The analysis has at most `min N 64 - 1` harmonics: they are drawn from
the bins from index 1 on. -/
theorem computeSpectral_harmonics_card {α : Type} [LinearOrderedField α]
    (ops : TrigOps α) (seq : List α) :
    (computeSpectral ops seq).harmonics.length ≤ min seq.length 64 - 1 := by
  have h1 : (computeSpectral ops seq).harmonics.length ≤
      (((computeSpectral ops seq).magnitudes.zip
        (computeSpectral ops seq).frequencies).drop 1).length :=
    List.length_filterMap_le _ _
  have h2 : (((computeSpectral ops seq).magnitudes.zip
      (computeSpectral ops seq).frequencies).drop 1).length =
      min seq.length 64 - 1 := by
    rw [List.length_drop, List.length_zip, computeSpectral_magnitudes,
      computeSpectral_frequencies]
    simp
  exact h2 ▸ h1

/-! ## Claim C6: periodicity score formula and bounds -/

/-- Claim C6: for every spectral analysis over a window of length at least
10, the periodicity score equals the number of harmonics divided by the
number of frequency bins, and lies in `[0, 1]`. -/
theorem claim_C6_periodicity_score {α : Type} [LinearOrderedField α]
    (ops : TrigOps α) (seq : List α) (h : 10 ≤ seq.length) :
    (computeSpectral ops seq).periodicityScore =
      ((computeSpectral ops seq).harmonics.length : α) /
        ((min seq.length 64 : ℕ) : α) ∧
    0 ≤ (computeSpectral ops seq).periodicityScore ∧
    (computeSpectral ops seq).periodicityScore ≤ 1 := by
  have hn : 10 ≤ min seq.length 64 := le_min h (by norm_num)
  have hnposN : 0 < min seq.length 64 := lt_of_lt_of_le (by norm_num) hn
  have hnpos : (0 : α) < ((min seq.length 64 : ℕ) : α) :=
    Nat.cast_pos.mpr hnposN
  have hcard := computeSpectral_harmonics_card ops seq
  have hcast : ((computeSpectral ops seq).harmonics.length : α) ≤
      ((min seq.length 64 : ℕ) : α) :=
    Nat.cast_le.mpr (le_trans hcard (Nat.sub_le _ _))
  rw [computeSpectral_score]
  by_cases h0 : 0 < (computeSpectral ops seq).harmonics.length
  · rw [if_pos h0]
    refine ⟨rfl, ?_, ?_⟩
    · exact div_nonneg (Nat.cast_nonneg _) (le_of_lt hnpos)
    · rw [div_le_one hnpos]; exact hcast
  · rw [if_neg h0]
    have hz : (computeSpectral ops seq).harmonics.length = 0 :=
      Nat.eq_zero_of_not_pos h0
    refine ⟨?_, le_refl 0, zero_le_one⟩
    rw [hz]
    simp

/-- Witness for claim C6 at a concrete window of ten zero samples. -/
theorem claim_C6_witness :
    10 ≤ (List.replicate 10 (0 : ℚ)).length ∧
    ((computeSpectral zeroTrigOps (List.replicate 10 (0 : ℚ))).periodicityScore =
       ((computeSpectral zeroTrigOps (List.replicate 10 (0 : ℚ))).harmonics.length : ℚ) /
         ((min (List.replicate 10 (0 : ℚ)).length 64 : ℕ) : ℚ) ∧
     0 ≤ (computeSpectral zeroTrigOps (List.replicate 10 (0 : ℚ))).periodicityScore ∧
     (computeSpectral zeroTrigOps (List.replicate 10 (0 : ℚ))).periodicityScore ≤ 1) :=
  ⟨by decide, claim_C6_periodicity_score zeroTrigOps _ (by decide)⟩

/-! ## Claim C10: the analysis is skipped on short windows -/

/-- Claim C10: with fewer than 10 samples in the window, invoking the
spectral analysis returns the stored snapshot and leaves the state
untouched; the initial snapshot has empty arrays, dominant frequency 0 and
periodicity score 0. -/
theorem claim_C10_short_window {α : Type} [LinearOrderedField α]
    (ops : TrigOps α) (st : BotSpectralState α)
    (h : st.behaviorSequence.length < 10) :
    performSpectralAnalysis ops st = (st.spectralData, st) ∧
    (initialSpectralData : SpectralData α) =
      { frequencies := []
        magnitudes := []
        dominantFrequency := 0
        harmonics := []
        periodicityScore := 0 } := by
  constructor
  · unfold performSpectralAnalysis
    rw [if_pos h]
  · rfl

/-- Witness for claim C10 at the freshly constructed bot state. -/
theorem claim_C10_witness :
    (BotSpectralState.behaviorSequence
        ⟨(initialSpectralData : SpectralData ℚ), []⟩).length < 10 ∧
    performSpectralAnalysis zeroTrigOps
        ⟨(initialSpectralData : SpectralData ℚ), []⟩ =
      ((initialSpectralData : SpectralData ℚ),
        ⟨(initialSpectralData : SpectralData ℚ), []⟩) :=
  ⟨by decide,
    (claim_C10_short_window zeroTrigOps
      ⟨(initialSpectralData : SpectralData ℚ), []⟩ (by decide)).1⟩

/-! ## Claim C4: bounded sliding behavior window -/

/-- Claim C4: after every append to a window that respects the 1000-sample
capacity, the window still holds at most 1000 samples, and it equals the
suffix of most recent arrivals (when the capacity is exceeded the oldest
sample is the one removed, in arrival order). -/
theorem claim_C4_sliding_window {α : Type} [LinearOrderedField α]
    (st : BotSpectralState α) (v : α)
    (h : st.behaviorSequence.length ≤ 1000) :
    (addToBehaviorSequence st v).behaviorSequence.length ≤ 1000 ∧
    (addToBehaviorSequence st v).behaviorSequence =
      (st.behaviorSequence ++ [v]).drop
        ((st.behaviorSequence ++ [v]).length - 1000) := by
  have hseq : (addToBehaviorSequence st v).behaviorSequence =
      if 1000 < (st.behaviorSequence ++ [v]).length then
        (st.behaviorSequence ++ [v]).drop 1
      else st.behaviorSequence ++ [v] := rfl
  have hlen : (st.behaviorSequence ++ [v]).length =
      st.behaviorSequence.length + 1 := by simp
  rw [hseq]
  by_cases hc : 1000 < (st.behaviorSequence ++ [v]).length
  · rw [if_pos hc]
    constructor
    · simp only [List.length_drop]
      omega
    · have : (st.behaviorSequence ++ [v]).length - 1000 = 1 := by omega
      rw [this]
  · rw [if_neg hc]
    constructor
    · omega
    · have : (st.behaviorSequence ++ [v]).length - 1000 = 0 := by omega
      rw [this, List.drop_zero]

/-- Witness for claim C4 at a concrete one-element window. -/
theorem claim_C4_witness :
    (BotSpectralState.behaviorSequence
        ⟨(initialSpectralData : SpectralData ℚ), [3]⟩).length ≤ 1000 ∧
    ((addToBehaviorSequence ⟨(initialSpectralData : SpectralData ℚ), [3]⟩
        (7 : ℚ)).behaviorSequence.length ≤ 1000 ∧
     (addToBehaviorSequence ⟨(initialSpectralData : SpectralData ℚ), [3]⟩
        (7 : ℚ)).behaviorSequence =
       (([3] : List ℚ) ++ [7]).drop ((([3] : List ℚ) ++ [7]).length - 1000)) :=
  ⟨by decide,
    claim_C4_sliding_window ⟨(initialSpectralData : SpectralData ℚ), [3]⟩ 7
      (by decide)⟩

/-! ## Claim C1: trajectory length, first element, unconditional append -/

/-- Each iteration of the stepping loop appends exactly the state at its
entry to the trajectory. -/
theorem simIteration_trajectory (cfg : RunConfig) (es : EngineState) (i : ℕ) :
    (simIteration cfg es i).trajectory = es.trajectory ++ [es.cur] :=
  rfl

/-- After `j` iterations the trajectory holds exactly `j` states. -/
theorem sim_loop_length (cfg : RunConfig) :
    ∀ j : ℕ,
      (((List.range j).foldl (simIteration cfg) (startEngine cfg)).trajectory).length
        = j := by
  intro j
  induction j with
  | zero => rfl
  | succ m ih =>
    rw [List.range_succ, List.foldl_append, List.foldl_cons, List.foldl_nil,
      simIteration_trajectory]
    simp [ih]

/-- After at least one iteration, the first trajectory entry is the initial
state. -/
theorem sim_loop_head (cfg : RunConfig) :
    ∀ j : ℕ, 0 < j →
      (((List.range j).foldl (simIteration cfg) (startEngine cfg)).trajectory).head?
        = some (initState cfg) := by
  intro j
  induction j with
  | zero => intro h; exact absurd h (lt_irrefl 0)
  | succ m ih =>
    intro _
    rw [List.range_succ, List.foldl_append, List.foldl_cons, List.foldl_nil,
      simIteration_trajectory]
    cases Nat.eq_zero_or_pos m with
    | inl h0 =>
      subst h0
      rfl
    | inr hpos =>
      rw [List.head?_append, ih hpos]
      rfl

/-- Claim C1: for every valid `RunConfig` the produced trajectory has length
exactly `steps`, its first element is the initial state
`(x0, y0, vx0, vy0, phase0)`, and a state is appended on every iteration
unconditionally (after `j` iterations the trajectory holds exactly `j`
states). -/
theorem claim_C1_trajectory (cfg : RunConfig) (h : validConfig cfg) :
    (runSim cfg).trajectory.length = cfg.steps ∧
    (runSim cfg).trajectory.head? = some (initState cfg) ∧
    ∀ j : ℕ, j ≤ cfg.steps →
      (((List.range j).foldl (simIteration cfg) (startEngine cfg)).trajectory).length
        = j := by
  refine ⟨sim_loop_length cfg cfg.steps, ?_, fun j _ => sim_loop_length cfg j⟩
  exact sim_loop_head cfg cfg.steps h.2.2.2.2.2.2.1

/-- Witness for claim C1 at a concrete valid configuration. -/
theorem claim_C1_witness :
    validConfig sampleConfig ∧
    ((runSim sampleConfig).trajectory.length = sampleConfig.steps ∧
     (runSim sampleConfig).trajectory.head? = some (initState sampleConfig) ∧
     ∀ j : ℕ, j ≤ sampleConfig.steps →
       (((List.range j).foldl (simIteration sampleConfig)
           (startEngine sampleConfig)).trajectory).length = j) :=
  ⟨by decide, claim_C1_trajectory sampleConfig (by decide)⟩

/-! ## Claim C7: per-category stores bounded and sorted -/

/-- The descending sort used by the run-sorting pass is sorted by score
descending. -/
theorem sortByScoreDesc_sorted (l : List LBEntry) :
    List.Sorted (fun a b => b.score ≤ a.score) (sortByScoreDesc l) := by
  have h := @List.sorted_mergeSort LBEntry
    (fun a b : LBEntry => decide (b.score ≤ a.score))
    (fun a b c hab hbc => by
      simp only [decide_eq_true_eq] at *
      exact le_trans hbc hab)
    (fun a b => by
      simp only [Bool.or_eq_true, decide_eq_true_eq]
      exact le_total b.score a.score) l
  exact List.Pairwise.imp (fun hab => by simpa using hab) h

/-- The descending sort preserves length. -/
theorem sortByScoreDesc_length (l : List LBEntry) :
    (sortByScoreDesc l).length = l.length :=
  List.length_mergeSort l

/-- Claim C7: after a run-sorting pass, the per-category store holds at
most 1000 entries and its entries are ordered by score descending. -/
theorem claim_C7_topk_bounded_sorted (store : List LBEntry) :
    (sortRunsCategory store).length ≤ 1000 ∧
    List.Sorted (fun a b => b.score ≤ a.score) (sortRunsCategory store) := by
  constructor
  · unfold sortRunsCategory getTopAnomalies
    rw [sortByScoreDesc_length]
    exact List.length_take_le 1000 _
  · exact sortByScoreDesc_sorted _

/-! ## Claim C8: determinism of the anomaly scoring (corrected) -/

/-- Counterexample for claim C8: the custom criterion registered by
`refineLogic` embeds the wall-clock reading in the emitted entry, so two
invocations on the identical event log at different clock readings produce
different entry lists — the output is not a function of
`(trajectory, eventLog, config)` alone. -/
theorem claim_C8_counterexample :
    spacingCriterion (fun _ => "")
        [{ step := 0, eventType := "reflect", phaseBefore := 0, phaseAfter := 0
           x := 0, y := 0, vx := 0, vy := 0 },
         { step := 1, eventType := "reflect", phaseBefore := 0, phaseAfter := 0
           x := 0, y := 0, vx := 0, vy := 0 },
         { step := 2, eventType := "reflect", phaseBefore := 0, phaseAfter := 0
           x := 0, y := 0, vx := 0, vy := 0 }] 0 ≠
      spacingCriterion (fun _ => "")
        [{ step := 0, eventType := "reflect", phaseBefore := 0, phaseAfter := 0
           x := 0, y := 0, vx := 0, vy := 0 },
         { step := 1, eventType := "reflect", phaseBefore := 0, phaseAfter := 0
           x := 0, y := 0, vx := 0, vy := 0 },
         { step := 2, eventType := "reflect", phaseBefore := 0, phaseAfter := 0
           x := 0, y := 0, vx := 0, vy := 0 }] 1 := by
  decide

/-- Claim C8 amended: the numeric score, category, description and source of
every entry the custom criterion emits are deterministic functions of the
event log; only the `id` and `timestamp` fields depend on the wall-clock
reading, so repeated invocations on identical inputs agree on everything but
those two fields. -/
theorem claim_C8_amended_deterministic_scores (iso iso2 : ℕ → String)
    (events : List SimEvent) (t1 t2 : ℕ) :
    (spacingCriterion iso events t1).map
        (fun e => (e.score, e.category, e.description, e.source)) =
      (spacingCriterion iso2 events t2).map
        (fun e => (e.score, e.category, e.description, e.source)) := by
  by_cases hc : (uniqueInOrder ((events.zip events.tail).map
      (fun p => (p.2.step : ℤ) - (p.1.step : ℤ)))).length ≤ 5
  · simp only [spacingCriterion]
    rw [if_pos hc, if_pos hc]
    rfl
  · simp only [spacingCriterion]
    rw [if_neg hc, if_neg hc]

/-! ## Claim C9: run-directory allocation (corrected) -/

/-- The digit list of `n` has at most `k` digits when `n < 10 ^ k`. -/
theorem natReprAux_length_le :
    ∀ (fuel n k : ℕ), n ≤ fuel → n < 10 ^ k → 0 < k →
      (natReprAux fuel n).length ≤ k := by
  intro fuel
  induction fuel with
  | zero =>
    intro n k hn _ _
    have hz : n = 0 := Nat.le_zero.mp hn
    subst hz
    simp [natReprAux]
  | succ f ih =>
    intro n k hn hnk hk
    unfold natReprAux
    by_cases h10 : n < 10
    · rw [if_pos h10]
      simpa using hk
    · rw [if_neg h10]
      push_neg at h10
      have hk2 : 2 ≤ k := by
        by_contra hlt
        push_neg at hlt
        have hk1 : k = 1 := by omega
        subst hk1
        simp at hnk
        omega
      have hdiv : n / 10 ≤ f := by
        have : n / 10 < n := Nat.div_lt_self (by omega) (by norm_num)
        omega
      have hpow : 10 ^ k = 10 ^ (k - 1) * 10 := by
        rw [← pow_succ]
        congr 1
        omega
      have hlt : n / 10 < 10 ^ (k - 1) := by
        rw [Nat.div_lt_iff_lt_mul (by norm_num : 0 < 10)]
        omega
      have hrec := ih (n / 10) (k - 1) hdiv hlt (by omega)
      rw [List.length_append]
      simp only [List.length_cons, List.length_nil]
      omega

/-- The decimal rendering of `n < 10 ^ k` has at most `k` characters. -/
theorem natDecimal_length_le (n k : ℕ) (hn : n < 10 ^ k) (hk : 0 < k) :
    (natDecimal n).length ≤ k := by
  unfold natDecimal
  by_cases h0 : n = 0
  · rw [if_pos h0]
    simpa using hk
  · rw [if_neg h0]
    show ((natReprAux n n).map _).length ≤ k
    rw [List.length_map]
    exact natReprAux_length_le n n k (le_refl n) hn hk

/-- `padStart` pads to exactly `max w s.length` characters. -/
theorem padStart_length (s : String) (w : ℕ) (c : Char) :
    (padStart s w c).length = max w s.length := by
  unfold padStart
  rw [String.length_append]
  show (List.replicate (w - s.length) c).length + s.length = max w s.length
  rw [List.length_replicate]
  omega

/-- The run name is `run_` plus the counter padded to at least six digits. -/
theorem formatRunName_length (n : ℕ) :
    (formatRunName n).length = 4 + max 6 (natDecimal n).length := by
  unfold formatRunName
  rw [String.length_append, padStart_length]
  rfl

/-- Claim C9 amended: a successful allocation yields the identifier
`run_` followed by the counter zero-padded to at least six digits (exactly
six while the counter stays below 10⁶, longer afterwards), records the new
directory and increments the counter by one (strictly increasing); when the
directory already exists the allocation returns an error and leaves the
store unchanged, never overwriting. -/
theorem claim_C9_allocation (st : StoreState) :
    (formatRunName st.counter ∉ st.dirs →
      allocateRunDir st =
        ({ counter := st.counter + 1
           dirs := st.dirs ++ [formatRunName st.counter] },
          Except.ok (formatRunName st.counter))) ∧
    (formatRunName st.counter ∈ st.dirs →
      (allocateRunDir st).1 = st ∧
      (allocateRunDir st).2 =
        Except.error ("Run directory already exists: " ++
          formatRunName st.counter)) ∧
    (st.counter < 1000000 → (formatRunName st.counter).length = 10) ∧
    10 ≤ (formatRunName st.counter).length := by
  refine ⟨?_, ?_, ?_, ?_⟩
  · intro hnotin
    unfold allocateRunDir
    rw [if_neg hnotin]
  · intro hin
    unfold allocateRunDir
    rw [if_pos hin]
    exact ⟨rfl, rfl⟩
  · intro hlt
    rw [formatRunName_length]
    have h6 : (natDecimal st.counter).length ≤ 6 :=
      natDecimal_length_le st.counter 6 (by norm_num at hlt ⊢; omega)
        (by norm_num)
    omega
  · rw [formatRunName_length]
    omega

/-- Witness for claim C9 amended: a fresh store allocates `run_000000` and
increments the counter; an occupied store fails and stays unchanged. -/
theorem claim_C9_witness :
    (formatRunName 0 ∉ ([] : List String) ∧
      allocateRunDir { counter := 0, dirs := [] } =
        ({ counter := 1, dirs := [formatRunName 0] },
          Except.ok (formatRunName 0))) ∧
    (formatRunName 5 ∈ [formatRunName 5] ∧
      (allocateRunDir { counter := 5, dirs := [formatRunName 5] }).1 =
        { counter := 5, dirs := [formatRunName 5] }) ∧
    ((0 : ℕ) < 1000000 ∧ (formatRunName 0).length = 10) :=
  ⟨⟨by decide, (claim_C9_allocation { counter := 0, dirs := [] }).1 (by decide)⟩,
   ⟨by decide,
     ((claim_C9_allocation { counter := 5, dirs := [formatRunName 5] }).2.1
       (by decide)).1⟩,
   ⟨by decide,
     (claim_C9_allocation { counter := 0, dirs := [] }).2.2.1 (by decide)⟩⟩

/-- Counterexample for claim C9 as stated: at counter 10⁶ a successful
allocation yields `run_1000000`, whose numeral part has seven digits, not
six — `padStart` pads but never truncates. -/
theorem claim_C9_counterexample :
    (allocateRunDir { counter := 1000000, dirs := [] }).2 =
      Except.ok (formatRunName 1000000) ∧
    (formatRunName 1000000).length = 11 ∧
    (formatRunName 1000000).length ≠ 10 := by
  refine ⟨rfl, by decide, by decide⟩

/-! ## Exponential and trigonometric sum lemmas -/

/-- Geometric sum of the `N`-th roots of unity: the sum of
`exp(2πi·m·t/N)` over `t < N` is `N` when `N ∣ m` and `0` otherwise. -/
theorem sum_exp_turn (N : ℕ) (hN : 0 < N) (m : ℤ) :
    ∑ t ∈ Finset.range N, Complex.exp (2 * Real.pi * Complex.I * (m * t / N)) =
      if (N : ℤ) ∣ m then (N : ℂ) else 0 := by
  have hNC : (N : ℂ) ≠ 0 := Nat.cast_ne_zero.mpr hN.ne'
  have h2πI : (2 * (Real.pi : ℂ) * Complex.I) ≠ 0 := by
    have hπ : (Real.pi : ℂ) ≠ 0 := by exact_mod_cast Real.pi_ne_zero
    simp [hπ, Complex.I_ne_zero]
  have hterm : ∀ t : ℕ, Complex.exp (2 * Real.pi * Complex.I * (m * t / N)) =
      Complex.exp (2 * Real.pi * Complex.I * (m / N)) ^ t := by
    intro t
    rw [← Complex.exp_nat_mul]
    ring_nf
  simp only [hterm]
  by_cases h : (N : ℤ) ∣ m
  · obtain ⟨q, hq⟩ := h
    have hmC : (m : ℂ) = (N : ℂ) * (q : ℂ) := by
      exact_mod_cast congrArg (fun z : ℤ => (z : ℂ)) hq
    have hz : Complex.exp (2 * Real.pi * Complex.I * ((m : ℂ) / N)) = 1 := by
      have harg : (2 : ℂ) * Real.pi * Complex.I * ((m : ℂ) / N) =
          (q : ℂ) * (2 * Real.pi * Complex.I) := by
        rw [hmC]
        field_simp
        ring
      rw [harg, Complex.exp_int_mul_two_pi_mul_I]
    rw [hz, if_pos ⟨q, hq⟩]
    simp
  · have hz1 : Complex.exp (2 * Real.pi * Complex.I * ((m : ℂ) / N)) ≠ 1 := by
      intro hcon
      rw [Complex.exp_eq_one_iff] at hcon
      obtain ⟨k, hk⟩ := hcon
      apply h
      refine ⟨k, ?_⟩
      have hdiv : (m : ℂ) / N = (k : ℂ) := by
        have hk' : (2 * (Real.pi : ℂ) * Complex.I) * ((m : ℂ) / N) =
            (2 * (Real.pi : ℂ) * Complex.I) * (k : ℂ) := by
          rw [hk]; ring
        exact mul_left_cancel₀ h2πI hk'
      have hmC : (m : ℂ) = ((N : ℤ) * k : ℤ) := by
        push_cast
        rw [eq_comm, mul_comm]
        rw [← hdiv]
        field_simp
      exact_mod_cast hmC
    rw [if_neg h]
    rw [geom_sum_eq hz1 N]
    have hzN : Complex.exp (2 * Real.pi * Complex.I * ((m : ℂ) / N)) ^ N = 1 := by
      rw [← Complex.exp_nat_mul]
      have harg : (N : ℂ) * (2 * Real.pi * Complex.I * ((m : ℂ) / N)) =
          (m : ℂ) * (2 * Real.pi * Complex.I) := by
        field_simp
        ring
      rw [harg, Complex.exp_int_mul_two_pi_mul_I]
    rw [hzN]
    simp

/-- Sum of `cos(2π·m·t/N)` over `t < N`: `N` when `N ∣ m`, else `0`. -/
theorem sum_cos_turn (N : ℕ) (hN : 0 < N) (m : ℤ) :
    ∑ t ∈ Finset.range N, Real.cos (2 * Real.pi * (m * t / N)) =
      if (N : ℤ) ∣ m then (N : ℝ) else 0 := by
  have key : ∀ t : ℕ, Real.cos (2 * Real.pi * (m * t / N)) =
      (Complex.exp (2 * Real.pi * Complex.I * (m * t / N))).re := by
    intro t
    rw [← Complex.exp_ofReal_mul_I_re]
    congr 1
    push_cast
    ring
  simp only [key]
  rw [← Complex.re_sum, sum_exp_turn N hN m]
  by_cases h : (N : ℤ) ∣ m <;> simp [h]

/-- Sum of `sin(2π·m·t/N)` over `t < N` vanishes for every integer `m`. -/
theorem sum_sin_turn (N : ℕ) (hN : 0 < N) (m : ℤ) :
    ∑ t ∈ Finset.range N, Real.sin (2 * Real.pi * (m * t / N)) = 0 := by
  have key : ∀ t : ℕ, Real.sin (2 * Real.pi * (m * t / N)) =
      (Complex.exp (2 * Real.pi * Complex.I * (m * t / N))).im := by
    intro t
    rw [← Complex.exp_ofReal_mul_I_im]
    congr 1
    push_cast
    ring
  simp only [key]
  rw [← Complex.im_sum, sum_exp_turn N hN m]
  by_cases h : (N : ℤ) ∣ m <;> simp [h]

/-- Product-to-sum identity for `sin·cos`. -/
theorem sin_mul_cos_eq (a b : ℝ) :
    Real.sin a * Real.cos b = (Real.sin (a + b) + Real.sin (a - b)) / 2 := by
  rw [Real.sin_add, Real.sin_sub]
  ring

/-- Product-to-sum identity for `sin·sin`. -/
theorem sin_mul_sin_eq (a b : ℝ) :
    Real.sin a * Real.sin b = (Real.cos (a - b) - Real.cos (a + b)) / 2 := by
  rw [Real.cos_sub, Real.cos_add]
  ring

/-! ## Characterization of the dominant-frequency scan -/

/-- Characterization of the scan fold: either no pair exceeds the initial
running maximum and the accumulator is returned unchanged, or the result is
the earliest pair attaining the maximum, every earlier pair being strictly
below it and every pair at most it. -/
theorem domFold_char {α : Type} [LinearOrderedField α] :
    ∀ (l : List (α × α)) (acc : α × α),
      (l.foldl (fun md p => if md.1 < p.1 then p else md) acc = acc ∧
        ∀ p ∈ l, p.1 ≤ acc.1) ∨
      (∃ j : ℕ, ∃ hj : j < l.length,
        acc.1 < (l.get ⟨j, hj⟩).1 ∧
        l.foldl (fun md p => if md.1 < p.1 then p else md) acc = l.get ⟨j, hj⟩ ∧
        (∀ i : ℕ, ∀ hi : i < j,
          (l.get ⟨i, Nat.lt_trans hi hj⟩).1 < (l.get ⟨j, hj⟩).1) ∧
        ∀ p ∈ l, p.1 ≤ (l.get ⟨j, hj⟩).1) := by
  intro l
  induction l with
  | nil =>
    intro acc
    left
    exact ⟨rfl, by simp⟩
  | cons q rest ih =>
    intro acc
    rw [List.foldl_cons]
    by_cases hq : acc.1 < q.1
    · rw [if_pos hq]
      rcases ih q with ⟨heq, hall⟩ | ⟨j, hj, hacc, heq, hfirst, hall⟩
      · right
        refine ⟨0, by simp, ?_, ?_, ?_, ?_⟩
        · simpa using hq
        · simpa using heq
        · intro i hi
          exact absurd hi (Nat.not_lt_zero i)
        · intro p hp
          rcases List.mem_cons.mp hp with hpq | hpr
          · rw [hpq]; simp
          · simpa using hall p hpr
      · right
        refine ⟨j + 1, by simpa using Nat.succ_lt_succ hj, ?_, ?_, ?_, ?_⟩
        · simpa using lt_trans hq hacc
        · simpa using heq
        · intro i hi
          cases i with
          | zero => simpa using hacc
          | succ i' =>
            have hi' : i' < j := Nat.lt_of_succ_lt_succ hi
            simpa using hfirst i' hi'
        · intro p hp
          rcases List.mem_cons.mp hp with hpq | hpr
          · rw [hpq]; simpa using le_of_lt hacc
          · simpa using hall p hpr
    · rw [if_neg hq]
      rcases ih acc with ⟨heq, hall⟩ | ⟨j, hj, hacc, heq, hfirst, hall⟩
      · left
        refine ⟨heq, ?_⟩
        intro p hp
        rcases List.mem_cons.mp hp with hpq | hpr
        · rw [hpq]; exact le_of_not_lt hq
        · exact hall p hpr
      · right
        refine ⟨j + 1, by simpa using Nat.succ_lt_succ hj, ?_, ?_, ?_, ?_⟩
        · simpa using hacc
        · simpa using heq
        · intro i hi
          cases i with
          | zero =>
            have h1 : q.1 ≤ acc.1 := le_of_not_lt hq
            simpa using lt_of_le_of_lt h1 hacc
          | succ i' =>
            have hi' : i' < j := Nat.lt_of_succ_lt_succ hi
            simpa using hfirst i' hi'
        · intro p hp
          rcases List.mem_cons.mp hp with hpq | hpr
          · rw [hpq]
            have h1 : q.1 ≤ acc.1 := le_of_not_lt hq
            simpa using le_trans h1 (le_of_lt hacc)
          · simpa using hall p hpr

/-- The first component of the scan fold is the running maximum of the first
components. -/
theorem domFold_fst {α : Type} [LinearOrderedField α] :
    ∀ (l : List (α × α)) (acc : α × α),
      (l.foldl (fun md p => if md.1 < p.1 then p else md) acc).1 =
        l.foldl (fun m p => max m p.1) acc.1 := by
  intro l
  induction l with
  | nil => intro acc; rfl
  | cons q rest ih =>
    intro acc
    rw [List.foldl_cons, List.foldl_cons]
    by_cases hq : acc.1 < q.1
    · rw [if_pos hq, ih, max_eq_right (le_of_lt hq)]
    · rw [if_neg hq, ih, max_eq_left (le_of_not_lt hq)]

/-- Dropping one element distributes over `zip`. -/
theorem zip_drop_one {α β : Type} (l1 : List α) (l2 : List β) :
    (l1.zip l2).drop 1 = (l1.drop 1).zip (l2.drop 1) := by
  cases l1 <;> cases l2 <;> simp

/-- Folding the running maximum of the first components of a zip equals
folding it over the first list, when the second list is at least as long. -/
theorem zip_fold_max {α : Type} [LinearOrderedField α] :
    ∀ (l1 l2 : List α) (a : α), l1.length ≤ l2.length →
      (l1.zip l2).foldl (fun m p => max m p.1) a = l1.foldl max a := by
  intro l1
  induction l1 with
  | nil => intro l2 a _; simp
  | cons x xs ih =>
    intro l2 a hlen
    cases l2 with
    | nil => simp at hlen
    | cons y ys =>
      simp only [List.zip_cons_cons, List.foldl_cons]
      exact ih ys (max a x) (by simpa using hlen)

/-- A property of all first components of a zip holds of every element of
the first list, when the second list is at least as long. -/
theorem forall_fst_of_zip {α β : Type} (l1 : List α) (l2 : List β)
    (P : α → Prop) (hlen : l1.length ≤ l2.length)
    (h : ∀ p ∈ l1.zip l2, P p.1) : ∀ m ∈ l1, P m := by
  intro m hm
  obtain ⟨⟨i, hi⟩, hget⟩ := List.mem_iff_get.mp hm
  have hip : i < (l1.zip l2).length := by
    rw [List.length_zip]
    omega
  have hmem := List.get_mem (l1.zip l2) i hip
  have hz : (l1.zip l2).get ⟨i, hip⟩ =
      (l1.get ⟨i, hi⟩, l2.get ⟨i, by omega⟩) := by
    simp [List.get_eq_getElem, List.getElem_zip]
  have hP := h _ hmem
  rw [hz] at hP
  rw [← hget]
  exact hP

/-- The running maximum of the dominant scan is the maximum magnitude among
the non-DC bins. -/
theorem domScan_fst_eq_maxNonDC {α : Type} [LinearOrderedField α]
    (ops : TrigOps α) (seq : List α) :
    (domScan (((computeSpectral ops seq).magnitudes.zip
        (computeSpectral ops seq).frequencies).drop 1)).1 =
      maxNonDC (computeSpectral ops seq) := by
  unfold domScan maxNonDC
  rw [domFold_fst, zip_drop_one, zip_fold_max]
  simp [computeSpectral_magnitudes, computeSpectral_frequencies]

/-! ## Claim C5: dominant frequency and harmonics (corrected) -/

/-- Claim C5 amended: the harmonics are exactly the bins OTHER THAN BIN 0
whose magnitude exceeds half the maximum magnitude among bins other than
bin 0; and the dominant frequency is the frequency of the earliest bin with
index at least 1 attaining that maximum when it is positive, and 0 when no
bin with index at least 1 has positive magnitude. -/
theorem claim_C5_amended {α : Type} [LinearOrderedField α]
    (ops : TrigOps α) (seq : List α) (h : 10 ≤ seq.length) :
    ((computeSpectral ops seq).harmonics =
      (((computeSpectral ops seq).magnitudes.zip
          (computeSpectral ops seq).frequencies).drop 1).filterMap
        (fun p => if maxNonDC (computeSpectral ops seq) / 2 < p.1 then
          some p.2 else none)) ∧
    (((∀ m ∈ (computeSpectral ops seq).magnitudes.drop 1, m ≤ 0) ∧
        (computeSpectral ops seq).dominantFrequency = 0) ∨
      (∃ j : ℕ, 1 ≤ j ∧ j < (computeSpectral ops seq).magnitudes.length ∧
        (computeSpectral ops seq).dominantFrequency =
          (computeSpectral ops seq).frequencies.getD j 0 ∧
        (computeSpectral ops seq).magnitudes.getD j 0 =
          maxNonDC (computeSpectral ops seq) ∧
        0 < maxNonDC (computeSpectral ops seq) ∧
        (∀ i : ℕ, 1 ≤ i → i < j →
          (computeSpectral ops seq).magnitudes.getD i 0 <
            maxNonDC (computeSpectral ops seq)) ∧
        ∀ m ∈ (computeSpectral ops seq).magnitudes.drop 1,
          m ≤ maxNonDC (computeSpectral ops seq))) := by
  have hlenm : (computeSpectral ops seq).magnitudes.length = min seq.length 64 := by
    rw [computeSpectral_magnitudes]; simp
  have hlenf : (computeSpectral ops seq).frequencies.length = min seq.length 64 := by
    rw [computeSpectral_frequencies]; simp
  have hmin : 10 ≤ min seq.length 64 := le_min h (by norm_num)
  constructor
  · show (((computeSpectral ops seq).magnitudes.zip
        (computeSpectral ops seq).frequencies).drop 1).filterMap
        (fun p => if (domScan (((computeSpectral ops seq).magnitudes.zip
            (computeSpectral ops seq).frequencies).drop 1)).1 / 2 < p.1 then
          some p.2 else none) = _
    rw [domScan_fst_eq_maxNonDC]
  · have hdom : (computeSpectral ops seq).dominantFrequency =
        (domScan (((computeSpectral ops seq).magnitudes.zip
          (computeSpectral ops seq).frequencies).drop 1)).2 := rfl
    have hplen : (((computeSpectral ops seq).magnitudes.zip
        (computeSpectral ops seq).frequencies).drop 1).length =
        min seq.length 64 - 1 := by
      rw [List.length_drop, List.length_zip, hlenm, hlenf]
      simp
    have hchar := domFold_char
      (((computeSpectral ops seq).magnitudes.zip
        (computeSpectral ops seq).frequencies).drop 1) ((0 : α), (0 : α))
    rcases hchar with ⟨heq, hall⟩ | ⟨j, hj, hacc, heq, hfirst, hall⟩
    · left
      constructor
      · exact forall_fst_of_zip
          ((computeSpectral ops seq).magnitudes.drop 1)
          ((computeSpectral ops seq).frequencies.drop 1)
          (fun m => m ≤ 0)
          (by rw [List.length_drop, List.length_drop, hlenm, hlenf])
          (by
            rw [← zip_drop_one]
            intro p hp
            exact hall p hp)
      · rw [hdom]
        unfold domScan
        rw [heq]
    · right
      have hjm : j < min seq.length 64 - 1 := hplen ▸ hj
      have hjlt : 1 + j < min seq.length 64 := by omega
      have hget : (((computeSpectral ops seq).magnitudes.zip
          (computeSpectral ops seq).frequencies).drop 1).get ⟨j, hj⟩ =
          ((computeSpectral ops seq).magnitudes.getD (1 + j) 0,
           (computeSpectral ops seq).frequencies.getD (1 + j) 0) := by
        have h1 : 1 + j < (computeSpectral ops seq).magnitudes.length := by
          rw [hlenm]; exact hjlt
        have h2 : 1 + j < (computeSpectral ops seq).frequencies.length := by
          rw [hlenf]; exact hjlt
        rw [List.get_eq_getElem, List.getElem_drop, List.getElem_zip]
        rw [List.getD_eq_getElem _ _ h1, List.getD_eq_getElem _ _ h2]
      have hmax : maxNonDC (computeSpectral ops seq) =
          (computeSpectral ops seq).magnitudes.getD (1 + j) 0 := by
        rw [← domScan_fst_eq_maxNonDC ops seq]
        unfold domScan
        rw [heq, hget]
      refine ⟨1 + j, by omega, by rw [hlenm]; exact hjlt, ?_, ?_, ?_, ?_, ?_⟩
      · rw [hdom]
        unfold domScan
        rw [heq, hget]
      · rw [hmax]
      · rw [hmax]
        have := hacc
        rw [hget] at this
        exact this
      · intro i hi1 hij
        obtain ⟨i', rfl⟩ : ∃ i', i = 1 + i' := ⟨i - 1, by omega⟩
        have hi'j : i' < j := by omega
        have hgeti : (((computeSpectral ops seq).magnitudes.zip
            (computeSpectral ops seq).frequencies).drop 1).get
              ⟨i', Nat.lt_trans hi'j hj⟩ =
            ((computeSpectral ops seq).magnitudes.getD (1 + i') 0,
             (computeSpectral ops seq).frequencies.getD (1 + i') 0) := by
          have h1 : 1 + i' < (computeSpectral ops seq).magnitudes.length := by
            rw [hlenm]; omega
          have h2 : 1 + i' < (computeSpectral ops seq).frequencies.length := by
            rw [hlenf]; omega
          rw [List.get_eq_getElem, List.getElem_drop, List.getElem_zip]
          rw [List.getD_eq_getElem _ _ h1, List.getD_eq_getElem _ _ h2]
        have hlt := hfirst i' hi'j
        rw [hgeti, hget] at hlt
        rw [hmax]
        exact hlt
      · exact forall_fst_of_zip
          ((computeSpectral ops seq).magnitudes.drop 1)
          ((computeSpectral ops seq).frequencies.drop 1)
          (fun m => m ≤ maxNonDC (computeSpectral ops seq))
          (by rw [List.length_drop, List.length_drop, hlenm, hlenf])
          (by
            rw [← zip_drop_one]
            intro p hp
            have hple := hall p hp
            rw [hget] at hple
            rw [hmax]
            exact hple)

/-- Witness for claim C5 amended at a concrete window of ten zero samples. -/
theorem claim_C5_witness :
    10 ≤ (List.replicate 10 (0 : ℚ)).length ∧
    (((computeSpectral zeroTrigOps (List.replicate 10 (0 : ℚ))).harmonics =
      (((computeSpectral zeroTrigOps (List.replicate 10 (0 : ℚ))).magnitudes.zip
          (computeSpectral zeroTrigOps (List.replicate 10 (0 : ℚ))).frequencies).drop 1).filterMap
        (fun p => if maxNonDC (computeSpectral zeroTrigOps (List.replicate 10 (0 : ℚ))) / 2 < p.1 then
          some p.2 else none)) ∧
    (((∀ m ∈ (computeSpectral zeroTrigOps (List.replicate 10 (0 : ℚ))).magnitudes.drop 1, m ≤ 0) ∧
        (computeSpectral zeroTrigOps (List.replicate 10 (0 : ℚ))).dominantFrequency = 0) ∨
      (∃ j : ℕ, 1 ≤ j ∧ j < (computeSpectral zeroTrigOps (List.replicate 10 (0 : ℚ))).magnitudes.length ∧
        (computeSpectral zeroTrigOps (List.replicate 10 (0 : ℚ))).dominantFrequency =
          (computeSpectral zeroTrigOps (List.replicate 10 (0 : ℚ))).frequencies.getD j 0 ∧
        (computeSpectral zeroTrigOps (List.replicate 10 (0 : ℚ))).magnitudes.getD j 0 =
          maxNonDC (computeSpectral zeroTrigOps (List.replicate 10 (0 : ℚ))) ∧
        0 < maxNonDC (computeSpectral zeroTrigOps (List.replicate 10 (0 : ℚ))) ∧
        (∀ i : ℕ, 1 ≤ i → i < j →
          (computeSpectral zeroTrigOps (List.replicate 10 (0 : ℚ))).magnitudes.getD i 0 <
            maxNonDC (computeSpectral zeroTrigOps (List.replicate 10 (0 : ℚ)))) ∧
        ∀ m ∈ (computeSpectral zeroTrigOps (List.replicate 10 (0 : ℚ))).magnitudes.drop 1,
          m ≤ maxNonDC (computeSpectral zeroTrigOps (List.replicate 10 (0 : ℚ)))))) :=
  ⟨by decide, claim_C5_amended zeroTrigOps (List.replicate 10 (0 : ℚ)) (by decide)⟩
/-- Every element of the sublist obtained by dropping `d` first entries of a
mapped range is the image of an index between `d` and `n`. -/
theorem mem_drop_map_range {β : Type} (f : ℕ → β) (n d : ℕ) (m : β)
    (hm : m ∈ ((List.range n).map f).drop d) :
    ∃ k, d ≤ k ∧ k < n ∧ m = f k := by
  obtain ⟨⟨i, hi⟩, hget⟩ := List.mem_iff_get.mp hm
  have hlen : (((List.range n).map f).drop d).length = n - d := by simp
  rw [hlen] at hi
  refine ⟨d + i, by omega, by omega, ?_⟩
  rw [← hget, List.get_eq_getElem, List.getElem_drop, List.getElem_map,
    List.getElem_range]

/-- The scan fold leaves the accumulator unchanged when nothing exceeds it. -/
theorem domFold_no_update {α : Type} [LinearOrderedField α] :
    ∀ (l : List (α × α)) (acc : α × α), (∀ p ∈ l, p.1 ≤ acc.1) →
      l.foldl (fun md p => if md.1 < p.1 then p else md) acc = acc := by
  intro l
  induction l with
  | nil => intro acc _; rfl
  | cons q rest ih =>
    intro acc hall
    rw [List.foldl_cons, if_neg (not_lt.mpr (hall q (List.mem_cons_self q rest)))]
    exact ih acc (fun p hp => hall p (List.mem_cons_of_mem q hp))

/-- Folding `max` leaves the accumulator unchanged when nothing exceeds it. -/
theorem foldl_max_of_le {α : Type} [LinearOrderedField α] :
    ∀ (l : List α) (a : α), (∀ m ∈ l, m ≤ a) → l.foldl max a = a := by
  intro l
  induction l with
  | nil => intro a _; rfl
  | cons x xs ih =>
    intro a hall
    rw [List.foldl_cons, max_eq_left (hall x (List.mem_cons_self x xs))]
    exact ih a (fun m hm => hall m (List.mem_cons_of_mem x hm))

/-- Entry `j` of the dropped zip of two mapped ranges. -/
theorem pairs_get_map_range {α : Type} (n : ℕ) (f g : ℕ → α) (j : ℕ)
    (hj : j < ((((List.range n).map f).zip
      ((List.range n).map g)).drop 1).length) :
    ((((List.range n).map f).zip ((List.range n).map g)).drop 1).get ⟨j, hj⟩ =
      (f (1 + j), g (1 + j)) := by
  rw [List.get_eq_getElem, List.getElem_drop, List.getElem_zip,
    List.getElem_map, List.getElem_map, List.getElem_range]

/-- `real` accumulator of the constant all-ones window of ten samples:
`10` at the DC bin, `0` elsewhere. -/
theorem ones_binRe (k : ℕ) (hk : k < 10) :
    binRe realTrigOps (List.replicate 10 (1 : ℝ)) k =
      if k = 0 then 10 else 0 := by
  rw [binRe_eq_sum]
  simp only [List.length_replicate]
  have hterm : ∀ t ∈ Finset.range 10,
      (List.replicate 10 (1 : ℝ)).getD t 0 *
        realTrigOps.cosT ((k : ℚ) * (t : ℚ) / ((10 : ℕ) : ℚ)) =
      Real.cos (2 * Real.pi * ((k : ℤ) * t / ((10 : ℕ) : ℝ))) := by
    intro t ht
    rw [List.getD_eq_getElem _ _ (by simpa using Finset.mem_range.mp ht),
      List.getElem_replicate, one_mul]
    show Real.cos (2 * Real.pi * (((k : ℚ) * (t : ℚ) / ((10 : ℕ) : ℚ) : ℚ) : ℝ)) = _
    congr 1
    push_cast
    ring
  rw [Finset.sum_congr rfl hterm, sum_cos_turn 10 (by norm_num) (k : ℤ)]
  by_cases hk0 : k = 0
  · subst hk0
    simp
  · rw [if_neg ?_, if_neg hk0]
    intro hdvd
    have habs : |(k : ℤ)| < 10 := by
      rw [abs_of_nonneg (by exact_mod_cast Nat.zero_le k)]
      exact_mod_cast hk
    have hz := Int.eq_zero_of_abs_lt_dvd hdvd habs
    exact hk0 (by exact_mod_cast hz)

/-- `imag` accumulator of the constant all-ones window: `0` everywhere. -/
theorem ones_binIm (k : ℕ) (hk : k < 10) :
    binIm realTrigOps (List.replicate 10 (1 : ℝ)) k = 0 := by
  rw [binIm_eq_sum]
  simp only [List.length_replicate]
  have hterm : ∀ t ∈ Finset.range 10,
      (List.replicate 10 (1 : ℝ)).getD t 0 *
        realTrigOps.sinT ((k : ℚ) * (t : ℚ) / ((10 : ℕ) : ℚ)) =
      Real.sin (2 * Real.pi * ((k : ℤ) * t / ((10 : ℕ) : ℝ))) := by
    intro t ht
    rw [List.getD_eq_getElem _ _ (by simpa using Finset.mem_range.mp ht),
      List.getElem_replicate, one_mul]
    show Real.sin (2 * Real.pi * (((k : ℚ) * (t : ℚ) / ((10 : ℕ) : ℚ) : ℚ) : ℝ)) = _
    congr 1
    push_cast
    ring
  rw [Finset.sum_congr rfl hterm, sum_sin_turn 10 (by norm_num) (k : ℤ),
    neg_zero]

/-- Bin magnitudes of the constant all-ones window: `1` at the DC bin, `0`
elsewhere. -/
theorem ones_binMagnitude (k : ℕ) (hk : k < 10) :
    binMagnitude realTrigOps (List.replicate 10 (1 : ℝ)) k =
      if k = 0 then 1 else 0 := by
  unfold binMagnitude
  rw [ones_binRe k hk, ones_binIm k hk]
  simp only [List.length_replicate]
  by_cases hk0 : k = 0
  · subst hk0
    rw [if_pos rfl, if_pos rfl]
    show realTrigOps.sqrtF ((10 : ℝ) * 10 + 0 * 0) / ((10 : ℕ) : ℝ) = 1
    show Real.sqrt ((10 : ℝ) * 10 + 0 * 0) / ((10 : ℕ) : ℝ) = 1
    rw [show (10 : ℝ) * 10 + 0 * 0 = 10 ^ 2 by norm_num,
      Real.sqrt_sq (by norm_num : (0 : ℝ) ≤ 10)]
    norm_num
  · rw [if_neg hk0, if_neg hk0]
    show Real.sqrt ((0 : ℝ) * 0 + 0 * 0) / ((10 : ℕ) : ℝ) = 0
    rw [show (0 : ℝ) * 0 + 0 * 0 = 0 by norm_num, Real.sqrt_zero]
    norm_num

/-- The harmonics of the analysis are the non-DC pairs whose magnitude
exceeds half the maximum non-DC magnitude. -/
theorem computeSpectral_harmonics_eq {α : Type} [LinearOrderedField α]
    (ops : TrigOps α) (seq : List α) :
    (computeSpectral ops seq).harmonics =
      (((computeSpectral ops seq).magnitudes.zip
        (computeSpectral ops seq).frequencies).drop 1).filterMap
        (fun p => if maxNonDC (computeSpectral ops seq) / 2 < p.1 then
          some p.2 else none) := by
  show (((computeSpectral ops seq).magnitudes.zip
      (computeSpectral ops seq).frequencies).drop 1).filterMap
      (fun p => if (domScan (((computeSpectral ops seq).magnitudes.zip
        (computeSpectral ops seq).frequencies).drop 1)).1 / 2 < p.1 then
        some p.2 else none) = _
  rw [domScan_fst_eq_maxNonDC]

/-- Counterexample for claim C5 as stated: on the constant all-ones window
of ten samples, bin 0 has magnitude 1, which exceeds half the maximum
magnitude (the scan's maximum over bins other than 0 is 0), yet the
harmonics list is empty — the harmonics loop starts at bin 1 and never
admits bin 0, so the harmonics are not exactly "the bins whose magnitude
exceeds half the maximum magnitude". -/
theorem claim_C5_counterexample :
    (computeSpectral realTrigOps (List.replicate 10 (1 : ℝ))).magnitudes.getD 0 0 = 1 ∧
    maxNonDC (computeSpectral realTrigOps (List.replicate 10 (1 : ℝ))) = 0 ∧
    maxNonDC (computeSpectral realTrigOps (List.replicate 10 (1 : ℝ))) / 2 <
      (computeSpectral realTrigOps (List.replicate 10 (1 : ℝ))).magnitudes.getD 0 0 ∧
    (computeSpectral realTrigOps (List.replicate 10 (1 : ℝ))).harmonics = [] := by
  have hmags : (computeSpectral realTrigOps (List.replicate 10 (1 : ℝ))).magnitudes
      = (List.range 10).map (binMagnitude realTrigOps (List.replicate 10 (1 : ℝ))) := by
    rw [computeSpectral_magnitudes]
    norm_num
  have h0 : (computeSpectral realTrigOps (List.replicate 10 (1 : ℝ))).magnitudes.getD 0 0 = 1 := by
    rw [hmags, getD_map_range _ _ (by norm_num : (0 : ℕ) < 10),
      ones_binMagnitude 0 (by norm_num)]
    simp
  have htail : ∀ m ∈ (computeSpectral realTrigOps
      (List.replicate 10 (1 : ℝ))).magnitudes.drop 1, m = 0 := by
    rw [hmags]
    intro m hm
    obtain ⟨k, hk1, hk10, rfl⟩ := mem_drop_map_range _ 10 1 m hm
    rw [ones_binMagnitude k hk10, if_neg (by omega)]
  have hmax : maxNonDC (computeSpectral realTrigOps (List.replicate 10 (1 : ℝ))) = 0 := by
    unfold maxNonDC
    exact foldl_max_of_le _ 0 (fun m hm => le_of_eq (htail m hm))
  refine ⟨h0, hmax, by rw [hmax, h0]; norm_num, ?_⟩
  rw [computeSpectral_harmonics_eq, List.filterMap_eq_nil_iff]
  intro p hp
  have hp1 : p.1 = 0 := by
    rw [zip_drop_one] at hp
    obtain ⟨a, b⟩ := p
    exact htail a (List.of_mem_zip hp).1
  rw [hmax, hp1]
  simp

theorem sinusoidWindow_length (k0 : ℕ) : (sinusoidWindow k0).length = 64 := by
  unfold sinusoidWindow
  simp

/-- The `real` accumulator vanishes at every bin for a pure sinusoid window:
`sin·cos` expands by product-to-sum into sine sums over full periods. -/
theorem sinusoid_binRe (k0 k : ℕ) (hk : k < 64) :
    binRe realTrigOps (sinusoidWindow k0) k = 0 := by
  rw [binRe_eq_sum]
  rw [sinusoidWindow_length]
  have hterm : ∀ t ∈ Finset.range 64,
      (sinusoidWindow k0).getD t 0 *
        realTrigOps.cosT ((k : ℚ) * (t : ℚ) / ((64 : ℕ) : ℚ)) =
      (Real.sin (2 * Real.pi * (((k0 + k : ℕ) : ℤ) * t / ((64 : ℕ) : ℝ))) +
       Real.sin (2 * Real.pi *
         ((((k0 : ℤ) - k : ℤ) : ℝ) * t / ((64 : ℕ) : ℝ)))) / 2 := by
    intro t ht
    have htlt : t < 64 := Finset.mem_range.mp ht
    have hget : (sinusoidWindow k0).getD t 0 =
        Real.sin (2 * Real.pi * ((k0 : ℝ) * (t : ℝ) / 64)) := by
      unfold sinusoidWindow
      exact getD_map_range _ _ htlt
    rw [hget]
    show Real.sin (2 * Real.pi * ((k0 : ℝ) * (t : ℝ) / 64)) *
        Real.cos (2 * Real.pi * (((k : ℚ) * (t : ℚ) / ((64 : ℕ) : ℚ) : ℚ) : ℝ)) = _
    rw [sin_mul_cos_eq]
    have e1 : 2 * Real.pi * ((k0 : ℝ) * (t : ℝ) / 64) +
        2 * Real.pi * (((k : ℚ) * (t : ℚ) / ((64 : ℕ) : ℚ) : ℚ) : ℝ) =
        2 * Real.pi * (((k0 + k : ℕ) : ℤ) * t / ((64 : ℕ) : ℝ)) := by
      push_cast
      ring
    have e2 : 2 * Real.pi * ((k0 : ℝ) * (t : ℝ) / 64) -
        2 * Real.pi * (((k : ℚ) * (t : ℚ) / ((64 : ℕ) : ℚ) : ℚ) : ℝ) =
        2 * Real.pi * ((((k0 : ℤ) - k : ℤ) : ℝ) * t / ((64 : ℕ) : ℝ)) := by
      push_cast
      ring
    rw [e1, e2]
  rw [Finset.sum_congr rfl hterm, ← Finset.sum_div, Finset.sum_add_distrib,
    sum_sin_turn 64 (by norm_num) ((k0 + k : ℕ) : ℤ),
    sum_sin_turn 64 (by norm_num) ((k0 : ℤ) - (k : ℤ))]
  norm_num

/-- The `imag` accumulator of a pure sinusoid window of bin frequency
`k0/64` with `1 ≤ k0 ≤ 31`: `-32` at bin `k0`, `+32` at the mirror bin
`64 - k0`, `0` elsewhere. -/
theorem sinusoid_binIm (k0 k : ℕ) (hk0 : 1 ≤ k0) (hk0' : k0 ≤ 31)
    (hk : k < 64) :
    binIm realTrigOps (sinusoidWindow k0) k =
      if k = k0 then -32 else if k = 64 - k0 then 32 else 0 := by
  rw [binIm_eq_sum]
  rw [sinusoidWindow_length]
  have hterm : ∀ t ∈ Finset.range 64,
      (sinusoidWindow k0).getD t 0 *
        realTrigOps.sinT ((k : ℚ) * (t : ℚ) / ((64 : ℕ) : ℚ)) =
      (Real.cos (2 * Real.pi *
         ((((k0 : ℤ) - k : ℤ) : ℝ) * t / ((64 : ℕ) : ℝ))) -
       Real.cos (2 * Real.pi *
         (((k0 + k : ℕ) : ℤ) * t / ((64 : ℕ) : ℝ)))) / 2 := by
    intro t ht
    have htlt : t < 64 := Finset.mem_range.mp ht
    have hget : (sinusoidWindow k0).getD t 0 =
        Real.sin (2 * Real.pi * ((k0 : ℝ) * (t : ℝ) / 64)) := by
      unfold sinusoidWindow
      exact getD_map_range _ _ htlt
    rw [hget]
    show Real.sin (2 * Real.pi * ((k0 : ℝ) * (t : ℝ) / 64)) *
        Real.sin (2 * Real.pi * (((k : ℚ) * (t : ℚ) / ((64 : ℕ) : ℚ) : ℚ) : ℝ)) = _
    rw [sin_mul_sin_eq]
    have e1 : 2 * Real.pi * ((k0 : ℝ) * (t : ℝ) / 64) -
        2 * Real.pi * (((k : ℚ) * (t : ℚ) / ((64 : ℕ) : ℚ) : ℚ) : ℝ) =
        2 * Real.pi * ((((k0 : ℤ) - k : ℤ) : ℝ) * t / ((64 : ℕ) : ℝ)) := by
      push_cast
      ring
    have e2 : 2 * Real.pi * ((k0 : ℝ) * (t : ℝ) / 64) +
        2 * Real.pi * (((k : ℚ) * (t : ℚ) / ((64 : ℕ) : ℚ) : ℚ) : ℝ) =
        2 * Real.pi * (((k0 + k : ℕ) : ℤ) * t / ((64 : ℕ) : ℝ)) := by
      push_cast
      ring
    rw [e1, e2]
  rw [Finset.sum_congr rfl hterm, ← Finset.sum_div, Finset.sum_sub_distrib,
    sum_cos_turn 64 (by norm_num) ((k0 : ℤ) - k),
    sum_cos_turn 64 (by norm_num) ((k0 + k : ℕ) : ℤ)]
  have hd1 : (((64 : ℕ) : ℤ) ∣ ((k0 : ℤ) - k)) ↔ k = k0 := by
    constructor
    · intro hdvd
      have habs : |(k0 : ℤ) - k| < 64 := by
        rw [abs_lt]
        constructor <;> omega
      have := Int.eq_zero_of_abs_lt_dvd hdvd habs
      omega
    · intro hkk
      subst hkk
      simp
  have hd2 : (((64 : ℕ) : ℤ) ∣ ((k0 + k : ℕ) : ℤ)) ↔ k = 64 - k0 := by
    constructor
    · intro hdvd
      obtain ⟨c, hc⟩ := hdvd
      have hcb : 0 < (k0 : ℤ) + k ∧ (k0 : ℤ) + k < 128 := by
        constructor <;> [omega; omega]
      push_cast at hc
      omega
    · intro hkk
      subst hkk
      refine ⟨1, ?_⟩
      push_cast
      omega
  by_cases h1 : k = k0
  · have h2 : ¬ k = 64 - k0 := by omega
    rw [if_pos (hd1.mpr h1), if_neg (fun hd => h2 (hd2.mp hd)), if_pos h1]
    norm_num
  · by_cases h2 : k = 64 - k0
    · rw [if_neg (fun hd => h1 (hd1.mp hd)), if_pos (hd2.mpr h2),
        if_neg h1, if_pos h2]
      norm_num
    · rw [if_neg (fun hd => h1 (hd1.mp hd)), if_neg (fun hd => h2 (hd2.mp hd)),
        if_neg h1, if_neg h2]
      norm_num

/-- Bin magnitudes of a pure sinusoid window of bin frequency `k0/64` with
`1 ≤ k0 ≤ 31`: `1/2` at bin `k0` and at the mirror bin `64 - k0`, `0`
elsewhere. -/
theorem sinusoid_binMagnitude (k0 k : ℕ) (hk0 : 1 ≤ k0) (hk0' : k0 ≤ 31)
    (hk : k < 64) :
    binMagnitude realTrigOps (sinusoidWindow k0) k =
      if k = k0 ∨ k = 64 - k0 then (1 / 2 : ℝ) else 0 := by
  unfold binMagnitude
  rw [sinusoid_binRe k0 k hk, sinusoid_binIm k0 k hk0 hk0' hk]
  rw [sinusoidWindow_length]
  by_cases h1 : k = k0
  · rw [if_pos h1, if_pos (Or.inl h1)]
    show Real.sqrt ((0 : ℝ) * 0 + (-32) * (-32)) / ((64 : ℕ) : ℝ) = 1 / 2
    rw [show ((0 : ℝ) * 0 + (-32) * (-32)) = 32 ^ 2 by norm_num,
      Real.sqrt_sq (by norm_num : (0 : ℝ) ≤ 32)]
    norm_num
  · by_cases h2 : k = 64 - k0
    · rw [if_neg h1, if_pos h2, if_pos (Or.inr h2)]
      show Real.sqrt ((0 : ℝ) * 0 + 32 * 32) / ((64 : ℕ) : ℝ) = 1 / 2
      rw [show ((0 : ℝ) * 0 + 32 * 32) = 32 ^ 2 by norm_num,
        Real.sqrt_sq (by norm_num : (0 : ℝ) ≤ 32)]
      norm_num
    · rw [if_neg h1, if_neg h2, if_neg (by tauto)]
      show Real.sqrt ((0 : ℝ) * 0 + 0 * 0) / ((64 : ℕ) : ℝ) = 0
      rw [show ((0 : ℝ) * 0 + 0 * 0) = 0 by norm_num, Real.sqrt_zero]
      norm_num

/-- For windows of at least 10 samples the analyzer computes and returns
the full analysis. -/
theorem performSpectralAnalysis_compute {α : Type} [LinearOrderedField α]
    (ops : TrigOps α) (st : BotSpectralState α)
    (h : 10 ≤ st.behaviorSequence.length) :
    (performSpectralAnalysis ops st).1 =
      computeSpectral ops st.behaviorSequence := by
  unfold performSpectralAnalysis
  rw [if_neg (by omega)]

/-- Claim C3 amended: sinusoid recovery holds only for exact non-degenerate
bin frequencies — for every pure sinusoid of frequency `f = k0/64` with
`1 ≤ k0 ≤ 31` (zero phase) over a window of length 64, the reported
`dominantFrequency` equals `f` exactly, hence lies within `1/64` of `f`.
(For general frequencies and longer windows the original claim fails, see
the counterexample.) -/
theorem claim_C3_amended (k0 : ℕ) (hk0 : 1 ≤ k0) (hk0' : k0 ≤ 31) :
    (performSpectralAnalysis realTrigOps
        ⟨initialSpectralData, sinusoidWindow k0⟩).1.dominantFrequency =
      (k0 : ℝ) / 64 ∧
    |(performSpectralAnalysis realTrigOps
        ⟨initialSpectralData, sinusoidWindow k0⟩).1.dominantFrequency -
      (k0 : ℝ) / 64| ≤ 1 / 64 := by
  have hperform : (performSpectralAnalysis realTrigOps
      ⟨initialSpectralData, sinusoidWindow k0⟩).1 =
      computeSpectral realTrigOps (sinusoidWindow k0) := by
    refine performSpectralAnalysis_compute realTrigOps _ ?_
    show 10 ≤ (sinusoidWindow k0).length
    rw [sinusoidWindow_length k0]
    norm_num
  rw [hperform]
  clear hperform
  have hlen : (sinusoidWindow k0).length = 64 := sinusoidWindow_length k0
  have hm : (computeSpectral realTrigOps (sinusoidWindow k0)).magnitudes =
      (List.range 64).map (binMagnitude realTrigOps (sinusoidWindow k0)) := by
    rw [computeSpectral_magnitudes, hlen]
    norm_num
  have hf : (computeSpectral realTrigOps (sinusoidWindow k0)).frequencies =
      (List.range 64).map
        (fun k : ℕ => (k : ℝ) / ((sinusoidWindow k0).length : ℝ)) := by
    rw [computeSpectral_frequencies, hlen]
    norm_num
  have hdom : (computeSpectral realTrigOps (sinusoidWindow k0)).dominantFrequency =
      (domScan (((computeSpectral realTrigOps (sinusoidWindow k0)).magnitudes.zip
        (computeSpectral realTrigOps (sinusoidWindow k0)).frequencies).drop 1)).2 :=
    rfl
  have hpairs : (((computeSpectral realTrigOps (sinusoidWindow k0)).magnitudes.zip
      (computeSpectral realTrigOps (sinusoidWindow k0)).frequencies).drop 1) =
      ((((List.range 64).map (binMagnitude realTrigOps (sinusoidWindow k0))).zip
        ((List.range 64).map
          (fun k : ℕ => (k : ℝ) / ((sinusoidWindow k0).length : ℝ)))).drop 1) := by
    rw [hm, hf]
  have hplen : ((((List.range 64).map
      (binMagnitude realTrigOps (sinusoidWindow k0))).zip
      ((List.range 64).map
        (fun k : ℕ => (k : ℝ) / ((sinusoidWindow k0).length : ℝ)))).drop 1).length
      = 63 := by
    simp
  have hmain : (computeSpectral realTrigOps (sinusoidWindow k0)).dominantFrequency =
      (k0 : ℝ) / 64 := by
    rw [hdom, hpairs]
    unfold domScan
    rcases domFold_char ((((List.range 64).map
        (binMagnitude realTrigOps (sinusoidWindow k0))).zip
        ((List.range 64).map
          (fun k : ℕ => (k : ℝ) / ((sinusoidWindow k0).length : ℝ)))).drop 1)
        ((0 : ℝ), (0 : ℝ)) with ⟨heq, hall⟩ | ⟨j, hj, hacc, heq, hfirst, hall⟩
    · exfalso
      have hkidx : k0 - 1 < ((((List.range 64).map
          (binMagnitude realTrigOps (sinusoidWindow k0))).zip
          ((List.range 64).map
            (fun k : ℕ => (k : ℝ) / ((sinusoidWindow k0).length : ℝ)))).drop 1).length := by
        rw [hplen]; omega
      have hgetk0 := pairs_get_map_range 64
        (binMagnitude realTrigOps (sinusoidWindow k0))
        (fun k : ℕ => (k : ℝ) / ((sinusoidWindow k0).length : ℝ)) (k0 - 1) hkidx
      have hidx : 1 + (k0 - 1) = k0 := by omega
      rw [hidx] at hgetk0
      have hle := hall _ (List.get_mem _ (k0 - 1) hkidx)
      rw [hgetk0] at hle
      simp only at hle
      rw [sinusoid_binMagnitude k0 k0 hk0 hk0' (by omega),
        if_pos (Or.inl rfl)] at hle
      norm_num at hle
    · have hj63 : j < 63 := hplen ▸ hj
      have hget := pairs_get_map_range 64
        (binMagnitude realTrigOps (sinusoidWindow k0))
        (fun k : ℕ => (k : ℝ) / ((sinusoidWindow k0).length : ℝ)) j hj
      by_cases hcase : 1 + j = k0 ∨ 1 + j = 64 - k0
      · have hjk0 : 1 + j = k0 := by
          rcases hcase with hA | hB
          · exact hA
          · exfalso
            have hi'j : k0 - 1 < j := by omega
            have hgeti := pairs_get_map_range 64
              (binMagnitude realTrigOps (sinusoidWindow k0))
              (fun k : ℕ => (k : ℝ) / ((sinusoidWindow k0).length : ℝ))
              (k0 - 1) (Nat.lt_trans hi'j hj)
            have hidx : 1 + (k0 - 1) = k0 := by omega
            rw [hidx] at hgeti
            have hlt := hfirst (k0 - 1) hi'j
            rw [hgeti, hget] at hlt
            simp only at hlt
            rw [sinusoid_binMagnitude k0 k0 hk0 hk0' (by omega),
              if_pos (Or.inl rfl)] at hlt
            rw [sinusoid_binMagnitude k0 (1 + j) hk0 hk0' (by omega),
              if_pos (Or.inr hB)] at hlt
            norm_num at hlt
        rw [heq, hget]
        simp only
        rw [hjk0, hlen]
        norm_num
      · exfalso
        rw [hget] at hacc
        simp only at hacc
        rw [sinusoid_binMagnitude k0 (1 + j) hk0 hk0' (by omega),
          if_neg hcase] at hacc
        exact lt_irrefl 0 hacc
  refine ⟨hmain, ?_⟩
  rw [hmain]
  norm_num

/-- The Nyquist sinusoid `sin(2π·(32/64)·t) = sin(πt)` samples to zero at
every integer time. -/
theorem sinusoidWindow32_getD (t : ℕ) (ht : t < 64) :
    (sinusoidWindow 32).getD t 0 = 0 := by
  have hget : (sinusoidWindow 32).getD t 0 =
      Real.sin (2 * Real.pi * (((32 : ℕ) : ℝ) * (t : ℝ) / 64)) := by
    unfold sinusoidWindow
    exact getD_map_range _ _ ht
  rw [hget]
  have harg : 2 * Real.pi * (((32 : ℕ) : ℝ) * (t : ℝ) / 64) =
      (t : ℝ) * Real.pi := by
    push_cast
    ring
  rw [harg, Real.sin_nat_mul_pi]

theorem sinusoid32_binRe (k : ℕ) :
    binRe realTrigOps (sinusoidWindow 32) k = 0 := by
  rw [binRe_eq_sum, sinusoidWindow_length]
  rw [Finset.sum_congr rfl (fun t ht => ?_), Finset.sum_const_zero]
  rw [sinusoidWindow32_getD t (Finset.mem_range.mp ht), zero_mul]

theorem sinusoid32_binIm (k : ℕ) :
    binIm realTrigOps (sinusoidWindow 32) k = 0 := by
  rw [binIm_eq_sum, sinusoidWindow_length]
  rw [Finset.sum_congr rfl (fun t ht => ?_), Finset.sum_const_zero, neg_zero]
  rw [sinusoidWindow32_getD t (Finset.mem_range.mp ht), zero_mul]

theorem sinusoid32_binMagnitude (k : ℕ) :
    binMagnitude realTrigOps (sinusoidWindow 32) k = 0 := by
  unfold binMagnitude
  rw [sinusoid32_binRe, sinusoid32_binIm, sinusoidWindow_length]
  show Real.sqrt ((0 : ℝ) * 0 + 0 * 0) / ((64 : ℕ) : ℝ) = 0
  rw [show ((0 : ℝ) * 0 + 0 * 0) = 0 by norm_num, Real.sqrt_zero]
  norm_num

/-- Counterexample for claim C3 as stated: the pure sinusoid of Nyquist
frequency `f = 32/64 = 1/2` over a window of length 64 samples to zero at
every integer time, so every bin magnitude is 0, the scan never updates and
the reported `dominantFrequency` is 0 — at distance `1/2 > 1/64` from `f`. -/
theorem claim_C3_counterexample :
    (performSpectralAnalysis realTrigOps
        ⟨initialSpectralData, sinusoidWindow 32⟩).1.dominantFrequency = 0 ∧
    (1 : ℝ) / 64 <
      |(performSpectralAnalysis realTrigOps
          ⟨initialSpectralData, sinusoidWindow 32⟩).1.dominantFrequency -
        (32 : ℝ) / 64| := by
  have hperform : (performSpectralAnalysis realTrigOps
      ⟨initialSpectralData, sinusoidWindow 32⟩).1 =
      computeSpectral realTrigOps (sinusoidWindow 32) := by
    refine performSpectralAnalysis_compute realTrigOps _ ?_
    show 10 ≤ (sinusoidWindow 32).length
    rw [sinusoidWindow_length 32]
    norm_num
  rw [hperform]
  clear hperform
  have hlen : (sinusoidWindow 32).length = 64 := sinusoidWindow_length 32
  have hm : (computeSpectral realTrigOps (sinusoidWindow 32)).magnitudes =
      (List.range 64).map (binMagnitude realTrigOps (sinusoidWindow 32)) := by
    rw [computeSpectral_magnitudes, hlen]
    norm_num
  have hdom : (computeSpectral realTrigOps (sinusoidWindow 32)).dominantFrequency =
      (domScan (((computeSpectral realTrigOps (sinusoidWindow 32)).magnitudes.zip
        (computeSpectral realTrigOps (sinusoidWindow 32)).frequencies).drop 1)).2 :=
    rfl
  have hall : ∀ p ∈ (((computeSpectral realTrigOps
      (sinusoidWindow 32)).magnitudes.zip
      (computeSpectral realTrigOps (sinusoidWindow 32)).frequencies).drop 1),
      p.1 ≤ ((0 : ℝ), (0 : ℝ)).1 := by
    intro p hp
    rw [zip_drop_one] at hp
    obtain ⟨a, b⟩ := p
    have hmem := (List.of_mem_zip hp).1
    rw [hm] at hmem
    obtain ⟨k, hk1, hk64, rfl⟩ := mem_drop_map_range _ 64 1 a hmem
    rw [sinusoid32_binMagnitude k]
  have hzero : (computeSpectral realTrigOps (sinusoidWindow 32)).dominantFrequency
      = 0 := by
    rw [hdom]
    unfold domScan
    rw [domFold_no_update _ _ hall]
  refine ⟨hzero, ?_⟩
  rw [hzero]
  rw [show |(0 : ℝ) - 32 / 64| = 1 / 2 by norm_num [abs_of_nonpos]]
  norm_num

/-- Witness for claim C3 amended at the concrete bin frequency `16/64`. -/
theorem claim_C3_witness :
    (1 ≤ 16 ∧ 16 ≤ 31) ∧
    ((performSpectralAnalysis realTrigOps
        ⟨initialSpectralData, sinusoidWindow 16⟩).1.dominantFrequency =
      ((16 : ℕ) : ℝ) / 64 ∧
    |(performSpectralAnalysis realTrigOps
        ⟨initialSpectralData, sinusoidWindow 16⟩).1.dominantFrequency -
      ((16 : ℕ) : ℝ) / 64| ≤ 1 / 64) :=
  ⟨⟨by decide, by decide⟩, claim_C3_amended 16 (by decide) (by decide)⟩
